import Mathlib

/-
Verification of the per-region MVCC key-value store of TiFlash's KVStore,
embedded from dbms/src/Storages/KVStore/MultiRaft/RegionData.cpp.

RegionData owns three column-family stores (Default / Write / Lock), a running
byte-size counter covering Default+Write only, and an orphan-key tracker
(OrphanKeysInfo).  The column-family store itself (RegionCFDataBase) and the
raw-key codec (RecordKVFormat) live outside the provided sources, so they are
modelled from the spec (each such definition says so in its doc comment);
everything at the RegionData / OrphanKeysInfo level follows RegionData.cpp.

Machine integers: timestamps and indices are u64 in the source and are
modelled as Nat (no arithmetic near 2^64 occurs in any modelled operation);
the size counter cf_data_size is a size_t accumulating signed deltas and is
modelled as Int, the value the size_t arithmetic tracks modulo 2^64.
-/

set_option linter.unusedSectionVars false

namespace DB

/-- Raw byte strings (TiKV keys and values), modelled as lists of bytes. -/
abbrev Bytes := List Nat

/-- `RecordKVFormat::CFModifyFlag` of a decoded Write-CF value
    (PutFlag / DelFlag / LockFlag / RollbackFlag). -/
inductive WriteType where
  | put
  | del
  | lockFlag
  | rollback
deriving DecidableEq

/-- `kvrpcpb::Op`, the lock type carried by a decoded Lock-CF value. -/
inductive LockOp where
  | put
  | del
  | lockOp
  | pessimisticLock
deriving DecidableEq

/-- Decoded Lock-CF value (`DecodedLockCFValue`): lock version, lock type,
    min commit ts, and the locking transaction's primary key. -/
structure DecodedLock where
  lockVersion : Nat
  lockType : LockOp
  minCommitTs : Nat
  primaryKey : Bytes
deriving DecidableEq

/-- Decoded Write-CF value: `{write_type, prewrite_ts, short_value}`. -/
structure WriteCFValue where
  writeType : WriteType
  prewriteTs : Nat
  shortValue : Option Bytes
deriving DecidableEq

/-- Duplicate-handling mode of a CF-store insert.
    Modelled from the spec: `dupMode` selects whether an existing key is
    silently overwritten (normal replay) or treated as a logic fault. -/
inductive DupCheck where
  | allow
  | deny
deriving DecidableEq

/-- `RegionData::OrphanKeysInfo`: raw write-CF keys whose default-CF companion
    has not yet been replayed, plus the snapshot/deadline replay window.
    `remained_keys` is a `std::unordered_set`, modelled as a duplicate-free
    list with set-semantics insert.  The `removed_remained_keys` member is
    omitted: the only write to it in the source is commented out, so it is
    always empty. -/
structure OrphanKeysInfo where
  remainedKeys : List Bytes
  snapshotIndex : Option Nat
  deadlineIndex : Option Nat
  preHandling : Bool
  regionId : Nat
deriving DecidableEq

/-- A fresh tracker, as default-constructed in C++. -/
def OrphanKeysInfo.init : OrphanKeysInfo :=
  { remainedKeys := [], snapshotIndex := none, deadlineIndex := none
    preHandling := false, regionId := 0 }

/-- `OrphanKeysInfo::containsExtraKey`. -/
def OrphanKeysInfo.containsExtraKey (o : OrphanKeysInfo) (k : Bytes) : Bool :=
  o.remainedKeys.contains k

/-- `OrphanKeysInfo::observeExtraKey`: set insert into `remained_keys`
    (idempotent). -/
def OrphanKeysInfo.observeExtraKey (o : OrphanKeysInfo) (k : Bytes) : OrphanKeysInfo :=
  if o.remainedKeys.contains k then o
  else { o with remainedKeys := o.remainedKeys ++ [k] }

/-- `OrphanKeysInfo::observeKeyFromNormalWrite`: erase `key` from
    `remained_keys`, returning whether it was present. -/
def OrphanKeysInfo.observeKeyFromNormalWrite (o : OrphanKeysInfo) (k : Bytes) :
    OrphanKeysInfo × Bool :=
  ({ o with remainedKeys := o.remainedKeys.filter (fun x => x != k) },
   o.remainedKeys.contains k)

/-- `OrphanKeysInfo::remainedKeyCount`. -/
def OrphanKeysInfo.remainedKeyCount (o : OrphanKeysInfo) : Nat :=
  o.remainedKeys.length

/-- Set-insert a list of raw keys into a tracker, one after another. -/
def orphanInsertAll : OrphanKeysInfo → List Bytes → OrphanKeysInfo
  | o, [] => o
  | o, k :: t => orphanInsertAll (o.observeExtraKey k) t

/-- `OrphanKeysInfo::mergeFrom`: insert every remained key of `other`
    (set union of the remained-key sets). -/
def OrphanKeysInfo.mergeFrom (o other : OrphanKeysInfo) : OrphanKeysInfo :=
  orphanInsertAll o other.remainedKeys

/-- The fatal condition raised by `OrphanKeysInfo::advanceAppliedIndex`:
    orphan keys from a snapshot survived past the deadline.  The payload
    mirrors the diagnostic of the thrown exception. -/
inductive OrphanFatal where
  | orphanKeysRemain (count : Nat) (one : Bytes)
      (regionId snapshotIndex deadlineIndex appliedIndex : Nat)
deriving DecidableEq

/-- `OrphanKeysInfo::advanceAppliedIndex`: when both `deadline_index` and
    `snapshot_index` are set, `applied_index >= deadline_index` with remaining
    orphan keys is a fatal consistency fault. -/
def OrphanKeysInfo.advanceAppliedIndex (o : OrphanKeysInfo) (appliedIndex : Nat) :
    Except OrphanFatal Unit :=
  match o.deadlineIndex, o.snapshotIndex with
  | some di, some si =>
    if appliedIndex ≥ di ∧ o.remainedKeyCount > 0 then
      .error (.orphanKeysRemain o.remainedKeyCount (o.remainedKeys.headD [])
        o.regionId si di appliedIndex)
    else .ok ()
  | _, _ => .ok ()

/-! ## Column-Family Store

Modelled from the spec: the per-family sorted key-to-value container
(`RegionCFDataBase` and its traits are not among the provided sources).
A store is an association list with unique keys; the list order is the
store's iteration order.  `insert` returns the net byte-size change,
`remove` with `tolerateMissing` returns 0 on an absent key, `splitInto` /
`mergeFrom` move entries across stores returning the byte size moved, and
`serialize` / `deserialize` are an ordered binary encode/decode of all
entries with the size recomputed from decoded content. -/

/-- A column-family store: association list with unique keys. -/
abbrev CFMap (K V : Type) := List (K × V)

variable {K V : Type} [DecidableEq K]

/-- First-match lookup in a store. -/
def cfLookup : CFMap K V → K → Option V
  | [], _ => none
  | e :: t, k => if e.1 = k then some e.2 else cfLookup t k

/-- Replace the value at an existing key in place, or append when absent. -/
def cfSet : CFMap K V → K × V → CFMap K V
  | [], e => [e]
  | x :: t, e => if x.1 = e.1 then e :: t else x :: cfSet t e

/-- Erase the entry with the given key if present. -/
def cfErase : CFMap K V → K → CFMap K V
  | [], _ => []
  | x :: t, k => if x.1 = k then t else x :: cfErase t k

/-- Sum of entry sizes of a store, under a per-entry size function. -/
def cfSize (sz : K × V → Int) (m : CFMap K V) : Int :=
  (m.map sz).sum

/-- Modelled from the spec: `insert(key, value, dupMode) -> sizeDelta`.
    Overwrite is allowed or is a logic fault (`none`) according to `mode`;
    the delta is the serialized-size difference. -/
def cfInsert (sz : K × V → Int) (m : CFMap K V) (k : K) (v : V) (mode : DupCheck) :
    Option (CFMap K V × Int) :=
  match cfLookup m k with
  | some old =>
    match mode with
    | .deny => none
    | .allow => some (cfSet m (k, v), sz (k, v) - sz (k, old))
  | none => some (m ++ [(k, v)], sz (k, v))

/-- Modelled from the spec: `remove(key, tolerateMissing) -> sizeDelta`;
    an absent key is a no-op delta 0 when tolerated, a fault otherwise. -/
def cfRemove (sz : K × V → Int) (m : CFMap K V) (k : K) (tolerateMissing : Bool) :
    Option (CFMap K V × Int) :=
  match cfLookup m k with
  | some old => some (cfErase m k, sz (k, old))
  | none => if tolerateMissing then some (m, 0) else none

/-- Modelled from the spec: `splitInto(range, target)` moves the entries whose
    key satisfies `p` into `target`, returning (remaining store, grown target,
    byte size moved). -/
def cfSplitInto (sz : K × V → Int) (p : K → Bool) (m target : CFMap K V) :
    CFMap K V × CFMap K V × Int :=
  (m.filter (fun e => !p e.1),
   target ++ m.filter (fun e => p e.1),
   cfSize sz (m.filter (fun e => p e.1)))

/-- Modelled from the spec: `mergeFrom(source)` inserts every entry of the
    source store in iteration order, returning the grown store and the byte
    size added. -/
def cfMergeFrom (sz : K × V → Int) (t : CFMap K V) : CFMap K V → CFMap K V × Int
  | [] => (t, 0)
  | e :: rest =>
    match cfInsert sz t e.1 e.2 .allow with
    | some (m2, d) =>
      let r := cfMergeFrom sz m2 rest
      (r.1, d + r.2)
    | none => cfMergeFrom sz t rest

/-! ### Binary encoding (spec-modelled serialization format) -/

/-- Length-prefixed byte string. -/
def encBytes (b : Bytes) : List Nat :=
  b.length :: b

/-- Decoder for `encBytes`; returns the decoded bytes and the rest. -/
def decBytes : List Nat → Option (Bytes × List Nat)
  | [] => none
  | n :: rest => if n ≤ rest.length then some (rest.take n, rest.drop n) else none

/-- Concatenated encodings of all entries, in store order. -/
def encAll (enc : K × V → List Nat) : CFMap K V → List Nat
  | [] => []
  | e :: t => enc e ++ encAll enc t

/-- Decode exactly `n` entries, threading the remaining stream. -/
def decEntries (dec : List Nat → Option ((K × V) × List Nat)) :
    Nat → List Nat → Option (CFMap K V × List Nat)
  | 0, rest => some ([], rest)
  | n + 1, rest =>
    match dec rest with
    | none => none
    | some (e, r) =>
      match decEntries dec n r with
      | none => none
      | some (es, r2) => some (e :: es, r2)

/-- Modelled from the spec: per-family `serialize` — entry count followed by
    the ordered entry encodings. -/
def cfSerialize (enc : K × V → List Nat) (m : CFMap K V) : List Nat :=
  m.length :: encAll enc m

/-- Modelled from the spec: per-family `deserialize`, inverse of
    `cfSerialize`; returns the decoded store and the unread rest. -/
def cfDeserialize (dec : List Nat → Option ((K × V) × List Nat)) :
    List Nat → Option (CFMap K V × List Nat)
  | [] => none
  | n :: rest => decEntries dec n rest

/-! ### Per-family entry encodings and serialized sizes -/

/-- Optional byte string: presence tag, then length-prefixed bytes. -/
def encOptBytes : Option Bytes → List Nat
  | none => [0]
  | some b => 1 :: encBytes b

/-- Decoder for `encOptBytes`. -/
def decOptBytes : List Nat → Option (Option Bytes × List Nat)
  | 0 :: rest => some (none, rest)
  | 1 :: rest =>
    match decBytes rest with
    | some (b, r) => some (some b, r)
    | none => none
  | _ => none

/-- Numeric tag of a `CFModifyFlag`. -/
def writeTypeTag : WriteType → Nat
  | .put => 0
  | .del => 1
  | .lockFlag => 2
  | .rollback => 3

/-- Decoder for `writeTypeTag`. -/
def decWriteType : Nat → Option WriteType
  | 0 => some .put
  | 1 => some .del
  | 2 => some .lockFlag
  | 3 => some .rollback
  | _ => none

/-- Numeric tag of a `kvrpcpb::Op`. -/
def lockOpTag : LockOp → Nat
  | .put => 0
  | .del => 1
  | .lockOp => 2
  | .pessimisticLock => 3

/-- Decoder for `lockOpTag`. -/
def decLockOp : Nat → Option LockOp
  | 0 => some .put
  | 1 => some .del
  | 2 => some .lockOp
  | 3 => some .pessimisticLock
  | _ => none

/-- Default-CF entry key: decoded `(primaryKey, startTs)`. -/
abbrev DefaultKey := Bytes × Nat

/-- Write-CF entry key: decoded `(primaryKey, commitTs)`. -/
abbrev WriteKey := Bytes × Nat

/-- Serialized form of a Default-CF entry `(pk, ts) -> payload`. -/
def encDefaultEntry (e : DefaultKey × Bytes) : List Nat :=
  encBytes e.1.1 ++ e.1.2 :: encBytes e.2

/-- Decoder for `encDefaultEntry`. -/
def decDefaultEntry (xs : List Nat) : Option ((DefaultKey × Bytes) × List Nat) :=
  match decBytes xs with
  | none => none
  | some (pk, r1) =>
    match r1 with
    | [] => none
    | ts :: r2 =>
      match decBytes r2 with
      | none => none
      | some (v, r3) => some (((pk, ts), v), r3)

/-- Serialized form of a Write-CF entry `(pk, ts) -> {writeType, prewriteTs,
    shortValue}`. -/
def encWriteEntry (e : WriteKey × WriteCFValue) : List Nat :=
  encBytes e.1.1
    ++ e.1.2 :: writeTypeTag e.2.writeType :: e.2.prewriteTs :: encOptBytes e.2.shortValue

/-- Decoder for `encWriteEntry`. -/
def decWriteEntry (xs : List Nat) : Option ((WriteKey × WriteCFValue) × List Nat) :=
  match decBytes xs with
  | none => none
  | some (pk, r1) =>
    match r1 with
    | ts :: wt :: pts :: r2 =>
      match decWriteType wt with
      | none => none
      | some w =>
        match decOptBytes r2 with
        | none => none
        | some (sv, r3) => some (((pk, ts), ⟨w, pts, sv⟩), r3)
    | _ => none

/-- Serialized form of a Lock-CF entry `rawKey -> DecodedLock`. -/
def encLockEntry (e : Bytes × DecodedLock) : List Nat :=
  encBytes e.1
    ++ e.2.lockVersion :: lockOpTag e.2.lockType :: e.2.minCommitTs
      :: encBytes e.2.primaryKey

/-- Decoder for `encLockEntry`. -/
def decLockEntry (xs : List Nat) : Option ((Bytes × DecodedLock) × List Nat) :=
  match decBytes xs with
  | none => none
  | some (k, r1) =>
    match r1 with
    | lv :: op :: mct :: r2 =>
      match decLockOp op with
      | none => none
      | some o =>
        match decBytes r2 with
        | none => none
        | some (pk, r3) => some ((k, ⟨lv, o, mct, pk⟩), r3)
    | _ => none

/-- Serialized size of a Default-CF entry (`calcTiKVKeyValueSize`). -/
def szDefault (e : DefaultKey × Bytes) : Int :=
  ((encDefaultEntry e).length : Int)

/-- Serialized size of a Write-CF entry (`calcTiKVKeyValueSize`). -/
def szWrite (e : WriteKey × WriteCFValue) : Int :=
  ((encWriteEntry e).length : Int)

/-- Size of a Lock-CF entry.  Modelled from the spec: locks are transient and
    never counted against region size (the `calcTiKVKeyValueSize`
    specialization for the Lock CF returns 0). -/
def szLock (_ : Bytes × DecodedLock) : Int :=
  0

/-! ## RegionData (RegionData.cpp) -/

/-- Lexicographic byte-string order (TiKV raw-key comparison).
    Modelled from the spec: raw keys are ordered byte strings. -/
def bytesLe : Bytes → Bytes → Bool
  | [], _ => true
  | _ :: _, [] => false
  | a :: as, b :: bs => if a < b then true else if a = b then bytesLe as bs else false

/-- Half-open raw-key range `[start, stop)`; `stop = none` is unbounded.
    Modelled from the spec: split moves the entries whose primary key falls
    inside a half-open key range. -/
structure RegionRange where
  start : Bytes
  stop : Option Bytes
deriving DecidableEq

/-- Membership of a primary key in a region range. -/
def inRange (r : RegionRange) (k : Bytes) : Bool :=
  bytesLe r.start k &&
    (match r.stop with
     | none => true
     | some e => !bytesLe e k)

/-- `RegionData`: the three family stores, the tracked byte-size counter
    (`cf_data_size`, covering Default+Write only), and the orphan tracker. -/
structure RegionData where
  defaultCF : CFMap DefaultKey Bytes
  writeCF : CFMap WriteKey WriteCFValue
  lockCF : CFMap Bytes DecodedLock
  cfDataSize : Int
  orphanKeysInfo : OrphanKeysInfo
deriving DecidableEq

/-- A fresh, empty RegionData. -/
def RegionData.empty : RegionData :=
  { defaultCF := [], writeCF := [], lockCF := [], cfDataSize := 0
    orphanKeysInfo := OrphanKeysInfo.init }

/-- `RegionData::dataSize`. -/
def RegionData.dataSize (rd : RegionData) : Int :=
  rd.cfDataSize

/-- `RegionData::insert`, Write case: the CF delta is added to
    `cf_data_size` and returned. -/
def RegionData.insertWrite (rd : RegionData) (pk : Bytes) (ts : Nat)
    (v : WriteCFValue) (mode : DupCheck) : Option (RegionData × Int) :=
  match cfInsert szWrite rd.writeCF (pk, ts) v mode with
  | some (m, d) => some ({ rd with writeCF := m, cfDataSize := rd.cfDataSize + d }, d)
  | none => none

/-- `RegionData::insert`, Default case. -/
def RegionData.insertDefault (rd : RegionData) (pk : Bytes) (ts : Nat)
    (v : Bytes) (mode : DupCheck) : Option (RegionData × Int) :=
  match cfInsert szDefault rd.defaultCF (pk, ts) v mode with
  | some (m, d) => some ({ rd with defaultCF := m, cfDataSize := rd.cfDataSize + d }, d)
  | none => none

/-- `RegionData::insert`, Lock case: the Lock CF is not counted into the size
    of RegionData, and 0 is returned. -/
def RegionData.insertLock (rd : RegionData) (k : Bytes) (l : DecodedLock)
    (mode : DupCheck) : Option (RegionData × Int) :=
  match cfInsert szLock rd.lockCF k l mode with
  | some (m, _) => some ({ rd with lockCF := m }, 0)
  | none => none

/-- `RegionData::remove`, Write case: the raw key decodes to `(pk, ts)` (the
    decode is done by `RecordKVFormat`, outside the provided sources, so this
    model takes the decoded key); removal tolerates a missing key (GC). -/
def RegionData.removeWrite (rd : RegionData) (pk : Bytes) (ts : Nat) : RegionData :=
  match cfRemove szWrite rd.writeCF (pk, ts) true with
  | some (m, d) => { rd with writeCF := m, cfDataSize := rd.cfDataSize - d }
  | none => rd

/-- `RegionData::remove`, Default case. -/
def RegionData.removeDefault (rd : RegionData) (pk : Bytes) (ts : Nat) : RegionData :=
  match cfRemove szDefault rd.defaultCF (pk, ts) true with
  | some (m, d) => { rd with defaultCF := m, cfDataSize := rd.cfDataSize - d }
  | none => rd

/-- `RegionData::remove`, Lock case: raw key, no size bookkeeping. -/
def RegionData.removeLock (rd : RegionData) (k : Bytes) : RegionData :=
  match cfRemove szLock rd.lockCF k true with
  | some (m, _) => { rd with lockCF := m }
  | none => rd

/-- `RegionData::removeDataByWriteIt`: remove one Write entry (given by its
    key; the C++ iterator always points at an existing entry, an absent key is
    a no-op here to keep the model total); a Put cascades to remove the
    matching Default entry at `(pk, prewrite_ts)` when present.  Both removals
    update `cf_data_size`. -/
def RegionData.removeDataByWriteIt (rd : RegionData) (pk : Bytes) (ts : Nat) :
    RegionData :=
  match cfLookup rd.writeCF (pk, ts) with
  | none => rd
  | some wv =>
    let rd1 :=
      if wv.writeType = WriteType.put then
        match cfLookup rd.defaultCF (pk, wv.prewriteTs) with
        | some dv =>
          { rd with defaultCF := cfErase rd.defaultCF (pk, wv.prewriteTs)
                    cfDataSize := rd.cfDataSize - szDefault ((pk, wv.prewriteTs), dv) }
        | none => rd
      else rd
    { rd1 with writeCF := cfErase rd1.writeCF (pk, ts)
               cfDataSize := rd1.cfDataSize - szWrite ((pk, ts), wv) }

/-- The raw TiKV-encoded key of a Write-CF entry, as stored in the entry and
    registered with the orphan tracker.  Modelled from the spec as an
    injective pairing of the decoded `(pk, ts)`. -/
def rawWriteKey (pk : Bytes) (ts : Nat) : Bytes :=
  ts :: pk

/-- Result tuple of `readDataByWriteIt`:
    `(pk, write_type, commit_ts, value-or-null)`. -/
abbrev RegionDataReadInfo := Bytes × WriteType × Nat × Option Bytes

/-- Exceptions thrown by `readDataByWriteIt`.  The first two carry the
    `ILLFORMAT_RAFT_ROW` error code; `runtimeCheckFailed` is the
    `RUNTIME_CHECK_MSG` at the top of the pre-handling branch. -/
inductive RDError where
  | illFormatEmptyPk (rawKey : Bytes)
  | illFormatMissingDefault (pk : Bytes) (prewriteTs : Nat) (regionId : Nat)
      (appliedIndex : Nat)
  | runtimeCheckFailed
deriving DecidableEq

/-- Whether an error carries the `ILLFORMAT_RAFT_ROW` code. -/
def RDError.isIllFormatRaftRow : RDError → Bool
  | .illFormatEmptyPk _ => true
  | .illFormatMissingDefault _ _ _ _ => true
  | .runtimeCheckFailed => false

/-- `RegionData::readDataByWriteIt`: the MVCC resolution algorithm.  The
    iterator is given as its decoded key `(pk, ts)` and value `wv`.  The
    result carries the (possibly updated) orphan tracker — the only mutation
    the function performs — and `none` for "not yet resolvable". -/
def RegionData.readDataByWriteIt (rd : RegionData) (pk : Bytes) (ts : Nat)
    (wv : WriteCFValue) (needValue : Bool) (regionId appliedIndex : Nat)
    (hardError : Bool) :
    Except RDError (OrphanKeysInfo × Option RegionDataReadInfo) :=
  if pk = [] then .error (.illFormatEmptyPk (rawWriteKey pk ts))
  else if !needValue then .ok (rd.orphanKeysInfo, some (pk, wv.writeType, ts, none))
  else if wv.writeType ≠ WriteType.put then
    .ok (rd.orphanKeysInfo, some (pk, wv.writeType, ts, none))
  else
    match wv.shortValue with
    | some sv => .ok (rd.orphanKeysInfo, some (pk, wv.writeType, ts, some sv))
    | none =>
      match cfLookup rd.defaultCF (pk, wv.prewriteTs) with
      | some dv => .ok (rd.orphanKeysInfo, some (pk, wv.writeType, ts, some dv))
      | none =>
        if !hardError then
          if rd.orphanKeysInfo.preHandling then
            if rd.orphanKeysInfo.snapshotIndex = none then
              .error .runtimeCheckFailed
            else
              .ok (rd.orphanKeysInfo.observeExtraKey (rawWriteKey pk ts), none)
          else if rd.orphanKeysInfo.snapshotIndex.isSome then
            -- the known-orphan branch and the indistinguishable-replay branch
            -- both return "not yet resolvable"
            .ok (rd.orphanKeysInfo, none)
          else
            -- orphan window lost after restart: neglect the error
            .ok (rd.orphanKeysInfo, none)
        else
          .error (.illFormatMissingDefault pk wv.prewriteTs regionId appliedIndex)

/-- `RegionLockReadQuery`: read timestamp and optional bypassed lock
    versions. -/
structure RegionLockReadQuery where
  readTso : Nat
  bypassLockTs : Option (List Nat)

/-- The linear scan of `RegionData::getLockInfo` over the Lock store. -/
def getLockInfoScan (q : RegionLockReadQuery) :
    CFMap Bytes DecodedLock → Option DecodedLock
  | [] => none
  | (_, l) :: t =>
    if l.lockVersion > q.readTso ∨ l.lockType = LockOp.lockOp
        ∨ l.lockType = LockOp.pessimisticLock then
      getLockInfoScan q t
    else if l.minCommitTs > q.readTso then
      getLockInfoScan q t
    else if (match q.bypassLockTs with
             | some bs => bs.contains l.lockVersion
             | none => false) then
      getLockInfoScan q t
    else
      some l

/-- `RegionData::getLockInfo`. -/
def RegionData.getLockInfo (rd : RegionData) (q : RegionLockReadQuery) :
    Option DecodedLock :=
  getLockInfoScan q rd.lockCF

/-- A lock that the `getLockInfo` scan does not skip: visible to the read's
    snapshot (`lock_version <= read_tso`), not a non-blocking intention lock
    (`Lock` / `PessimisticLock`), able to have committed before the read
    (`min_commit_ts <= read_tso`), and not bypassed by the caller. -/
def lockBlocking (q : RegionLockReadQuery) (l : DecodedLock) : Bool :=
  !(decide (l.lockVersion > q.readTso ∨ l.lockType = LockOp.lockOp
      ∨ l.lockType = LockOp.pessimisticLock))
    && !(decide (l.minCommitTs > q.readTso))
    && !(match q.bypassLockTs with
         | some bs => bs.contains l.lockVersion
         | none => false)

/-- `RegionData::splitInto`: each family store is split on the range, the
    moved byte size (Lock contributing 0 by `szLock`) is subtracted from the
    source counter and added to the target counter. -/
def RegionData.splitInto (rd : RegionData) (range : RegionRange)
    (nrd : RegionData) : RegionData × RegionData :=
  let d := cfSplitInto szDefault (fun k => inRange range k.1) rd.defaultCF nrd.defaultCF
  let w := cfSplitInto szWrite (fun k => inRange range k.1) rd.writeCF nrd.writeCF
  let l := cfSplitInto szLock (fun k => inRange range k) rd.lockCF nrd.lockCF
  let sizeChanged := d.2.2 + w.2.2 + l.2.2
  ({ rd with defaultCF := d.1, writeCF := w.1, lockCF := l.1
             cfDataSize := rd.cfDataSize - sizeChanged },
   { nrd with defaultCF := d.2.1, writeCF := w.2.1, lockCF := l.2.1
              cfDataSize := nrd.cfDataSize + sizeChanged })

/-- `RegionData::mergeFrom`: every entry of the source's three stores is
    inserted, and the added byte size is accumulated onto `cf_data_size`.
    The orphan tracker is left untouched. -/
def RegionData.mergeFrom (rd ori : RegionData) : RegionData :=
  let d := cfMergeFrom szDefault rd.defaultCF ori.defaultCF
  let w := cfMergeFrom szWrite rd.writeCF ori.writeCF
  let l := cfMergeFrom szLock rd.lockCF ori.lockCF
  { rd with defaultCF := d.1, writeCF := w.1, lockCF := l.1
            cfDataSize := rd.cfDataSize + (d.2 + w.2 + l.2) }

/-- `RegionData::serialize`: concatenated per-family serializations, in the
    fixed order Default, Write, Lock. -/
def RegionData.serialize (rd : RegionData) : List Nat :=
  cfSerialize encDefaultEntry rd.defaultCF
    ++ cfSerialize encWriteEntry rd.writeCF
    ++ cfSerialize encLockEntry rd.lockCF

/-- `RegionData::deserialize` into a fresh RegionData: the three families are
    decoded in order and `cf_data_size` is recomputed from the decoded
    entries (the per-family deserializers return the recomputed sizes, which
    are accumulated onto the fresh instance's zero counter). -/
def RegionData.deserialize (input : List Nat) : Option (RegionData × List Nat) :=
  match cfDeserialize decDefaultEntry input with
  | none => none
  | some (ds, r1) =>
    match cfDeserialize decWriteEntry r1 with
    | none => none
    | some (ws, r2) =>
      match cfDeserialize decLockEntry r2 with
      | none => none
      | some (ls, r3) =>
        some ({ defaultCF := ds, writeCF := ws, lockCF := ls
                cfDataSize := cfSize szDefault ds + cfSize szWrite ws + cfSize szLock ls
                orphanKeysInfo := OrphanKeysInfo.init }, r3)

/-- `RegionData::isEqual`: the three family stores are equal and the tracked
    size matches.  `std::map` equality is content equality, so store equality
    is permutation of the association lists. -/
def RegionData.isEqual (r1 r2 : RegionData) : Prop :=
  List.Perm r1.defaultCF r2.defaultCF ∧ List.Perm r1.writeCF r2.writeCF
    ∧ List.Perm r1.lockCF r2.lockCF ∧ r1.cfDataSize = r2.cfDataSize

instance (r1 r2 : RegionData) : Decidable (r1.isEqual r2) := by
  unfold RegionData.isEqual
  infer_instance

/-! ## Invariants and operation sequences -/

/-- Keys of a store are pairwise distinct (the map well-formedness every
    `std::map` guarantees). -/
def cfNodupKeys {K V : Type} (m : CFMap K V) : Prop :=
  (m.map Prod.fst).Nodup

/-- All three stores of a RegionData are well-formed maps. -/
def RegionData.wellFormed (rd : RegionData) : Prop :=
  cfNodupKeys rd.defaultCF ∧ cfNodupKeys rd.writeCF ∧ cfNodupKeys rd.lockCF

/-- The tracked-size invariant: `cf_data_size` equals the sum of the
    serialized sizes of the Default and Write entries currently stored. -/
def RegionData.sizeInv (rd : RegionData) : Prop :=
  rd.cfDataSize = cfSize szDefault rd.defaultCF + cfSize szWrite rd.writeCF

/-- One mutation on a single RegionData, with decoded arguments. -/
inductive RegionSingleOp where
  | insDefault (pk : Bytes) (ts : Nat) (v : Bytes) (mode : DupCheck)
  | insWrite (pk : Bytes) (ts : Nat) (v : WriteCFValue) (mode : DupCheck)
  | insLock (k : Bytes) (l : DecodedLock) (mode : DupCheck)
  | remDefault (pk : Bytes) (ts : Nat)
  | remWrite (pk : Bytes) (ts : Nat)
  | remLock (k : Bytes)
  | removeByWriteIt (pk : Bytes) (ts : Nat)

/-- Apply a single-region mutation; a duplicate-key fault (insert under
    `DupCheck.deny`) aborts the mutation, leaving the region unchanged. -/
def applySingleOp (rd : RegionData) : RegionSingleOp → RegionData
  | .insDefault pk ts v mode =>
    match rd.insertDefault pk ts v mode with
    | some (rd2, _) => rd2
    | none => rd
  | .insWrite pk ts v mode =>
    match rd.insertWrite pk ts v mode with
    | some (rd2, _) => rd2
    | none => rd
  | .insLock k l mode =>
    match rd.insertLock k l mode with
    | some (rd2, _) => rd2
    | none => rd
  | .remDefault pk ts => rd.removeDefault pk ts
  | .remWrite pk ts => rd.removeWrite pk ts
  | .remLock k => rd.removeLock k
  | .removeByWriteIt pk ts => rd.removeDataByWriteIt pk ts

/-- One step of a history over a pair of regions (A, B): a single-region
    mutation on either side, a split in either direction, or a merge in
    either direction. -/
inductive RegionOp where
  | onA (op : RegionSingleOp)
  | onB (op : RegionSingleOp)
  | splitAB (range : RegionRange)
  | splitBA (range : RegionRange)
  | mergeAB
  | mergeBA

/-- Apply one step to the pair of regions. -/
def applyRegionOp (s : RegionData × RegionData) : RegionOp → RegionData × RegionData
  | .onA op => (applySingleOp s.1 op, s.2)
  | .onB op => (s.1, applySingleOp s.2 op)
  | .splitAB range => s.1.splitInto range s.2
  | .splitBA range =>
    let p := s.2.splitInto range s.1
    (p.2, p.1)
  | .mergeAB => (s.1.mergeFrom s.2, s.2)
  | .mergeBA => (s.1, s.2.mergeFrom s.1)

/-- Apply a whole history. -/
def applyRegionOps (s : RegionData × RegionData) (ops : List RegionOp) :
    RegionData × RegionData :=
  ops.foldl applyRegionOp s

deriving instance DecidableEq for Except

instance : DecidableEq (OrphanKeysInfo × Option RegionDataReadInfo) :=
  instDecidableEqProd

instance (rd : RegionData) : Decidable rd.sizeInv := by
  unfold RegionData.sizeInv
  infer_instance

instance (rd : RegionData) : Decidable rd.wellFormed := by
  unfold RegionData.wellFormed cfNodupKeys
  infer_instance

/-- One observation step on the orphan tracker. -/
inductive OrphanOp where
  | extra (k : Bytes)
  | normalWrite (k : Bytes)
deriving DecidableEq

/-- Apply one tracker observation. -/
def applyOrphanOp (o : OrphanKeysInfo) : OrphanOp → OrphanKeysInfo
  | .extra k => o.observeExtraKey k
  | .normalWrite k => (o.observeKeyFromNormalWrite k).1

/-- Apply a sequence of tracker observations. -/
def applyOrphanOps (o : OrphanKeysInfo) (ops : List OrphanOp) : OrphanKeysInfo :=
  ops.foldl applyOrphanOp o

/-! ## Store lemmas -/

theorem decBytes_encBytes (b : Bytes) (t : List Nat) :
    decBytes (encBytes b ++ t) = some (b, t) := by
  simp [encBytes, decBytes, List.take_left, List.drop_left]

theorem decEntries_encAll (dec : List Nat → Option ((K × V) × List Nat))
    (enc : K × V → List Nat) (h : ∀ e t, dec (enc e ++ t) = some (e, t)) :
    ∀ (m : CFMap K V) (t : List Nat),
      decEntries dec m.length (encAll enc m ++ t) = some (m, t) := by
  intro m
  induction m with
  | nil => intro t; simp [encAll, decEntries]
  | cons e es ih =>
    intro t
    simp only [encAll, List.length_cons, List.append_assoc, decEntries, h, ih]

theorem cfDeserialize_cfSerialize (dec : List Nat → Option ((K × V) × List Nat))
    (enc : K × V → List Nat) (h : ∀ e t, dec (enc e ++ t) = some (e, t))
    (m : CFMap K V) (t : List Nat) :
    cfDeserialize dec (cfSerialize enc m ++ t) = some (m, t) := by
  simp [cfSerialize, cfDeserialize, decEntries_encAll dec enc h m t]

theorem cfDeserialize_cfSerialize_nil (dec : List Nat → Option ((K × V) × List Nat))
    (enc : K × V → List Nat) (h : ∀ e t, dec (enc e ++ t) = some (e, t))
    (m : CFMap K V) :
    cfDeserialize dec (cfSerialize enc m) = some (m, []) := by
  have hx := cfDeserialize_cfSerialize dec enc h m []
  simpa using hx

theorem decDefaultEntry_enc (e : DefaultKey × Bytes) (t : List Nat) :
    decDefaultEntry (encDefaultEntry e ++ t) = some (e, t) := by
  obtain ⟨⟨pk, ts⟩, v⟩ := e
  simp [encDefaultEntry, decDefaultEntry, List.append_assoc, decBytes_encBytes]

theorem decOptBytes_enc (sv : Option Bytes) (t : List Nat) :
    decOptBytes (encOptBytes sv ++ t) = some (sv, t) := by
  cases sv with
  | none => simp [encOptBytes, decOptBytes]
  | some b => simp [encOptBytes, decOptBytes, List.append_assoc, decBytes_encBytes]

theorem decWriteType_tag (w : WriteType) : decWriteType (writeTypeTag w) = some w := by
  cases w <;> rfl

theorem decLockOp_tag (o : LockOp) : decLockOp (lockOpTag o) = some o := by
  cases o <;> rfl

theorem decWriteEntry_enc (e : WriteKey × WriteCFValue) (t : List Nat) :
    decWriteEntry (encWriteEntry e ++ t) = some (e, t) := by
  obtain ⟨⟨pk, ts⟩, ⟨w, pts, sv⟩⟩ := e
  simp [encWriteEntry, decWriteEntry, List.append_assoc, decBytes_encBytes,
    decWriteType_tag, decOptBytes_enc]

theorem decLockEntry_enc (e : Bytes × DecodedLock) (t : List Nat) :
    decLockEntry (encLockEntry e ++ t) = some (e, t) := by
  obtain ⟨k, ⟨lv, o, mct, pk⟩⟩ := e
  simp [encLockEntry, decLockEntry, List.append_assoc, decBytes_encBytes,
    decLockOp_tag]

theorem cfSize_nil (sz : K × V → Int) : cfSize sz ([] : CFMap K V) = 0 :=
  rfl

theorem cfSize_cons (sz : K × V → Int) (e : K × V) (m : CFMap K V) :
    cfSize sz (e :: m) = sz e + cfSize sz m := by
  simp [cfSize]

theorem cfSize_append (sz : K × V → Int) (a b : CFMap K V) :
    cfSize sz (a ++ b) = cfSize sz a + cfSize sz b := by
  simp [cfSize]

theorem cfSize_cfSet (sz : K × V → Int) :
    ∀ {m : CFMap K V} {k : K} {old : V} (v : V), cfLookup m k = some old →
      cfSize sz (cfSet m (k, v)) = cfSize sz m + sz (k, v) - sz (k, old)
  | [], k, old, v, h => by simp [cfLookup] at h
  | x :: t, k, old, v, h => by
    by_cases hx : x.1 = k
    · simp only [cfLookup, if_pos hx] at h
      obtain rfl : x.2 = old := by injection h
      have hxe : x = (k, x.2) := by
        obtain ⟨a, b⟩ := x
        simp at hx
        simp [hx]
      simp only [cfSet, if_pos hx, cfSize_cons]
      rw [hxe]
      ring
    · simp only [cfLookup, if_neg hx] at h
      simp only [cfSet, if_neg hx, cfSize_cons, cfSize_cfSet sz v h]
      ring

theorem cfSize_cfErase (sz : K × V → Int) :
    ∀ {m : CFMap K V} {k : K} {old : V}, cfLookup m k = some old →
      cfSize sz (cfErase m k) = cfSize sz m - sz (k, old)
  | [], k, old, h => by simp [cfLookup] at h
  | x :: t, k, old, h => by
    by_cases hx : x.1 = k
    · simp only [cfLookup, if_pos hx] at h
      obtain rfl : x.2 = old := by injection h
      have hxe : x = (k, x.2) := by
        obtain ⟨a, b⟩ := x
        simp at hx
        simp [hx]
      simp only [cfErase, if_pos hx, cfSize_cons]
      rw [hxe]
      ring
    · simp only [cfLookup, if_neg hx] at h
      simp only [cfErase, if_neg hx, cfSize_cons, cfSize_cfErase sz h]
      ring

theorem cfInsert_size (sz : K × V → Int) {m : CFMap K V} {k : K} {v : V}
    {mode : DupCheck} {p : CFMap K V × Int} (h : cfInsert sz m k v mode = some p) :
    cfSize sz p.1 = cfSize sz m + p.2 := by
  unfold cfInsert at h
  cases hl : cfLookup m k with
  | none =>
    rw [hl] at h
    injection h with h
    subst h
    simp [cfSize_append, cfSize_cons, cfSize_nil]
  | some old =>
    rw [hl] at h
    cases mode with
    | deny => simp at h
    | allow =>
      injection h with h
      subst h
      rw [cfSize_cfSet sz v hl]
      ring

theorem cfRemove_size (sz : K × V → Int) {m : CFMap K V} {k : K}
    {tol : Bool} {p : CFMap K V × Int} (h : cfRemove sz m k tol = some p) :
    cfSize sz p.1 = cfSize sz m - p.2 := by
  unfold cfRemove at h
  cases hl : cfLookup m k with
  | none =>
    rw [hl] at h
    cases tol with
    | false => simp at h
    | true =>
      simp at h
      subst h
      simp
  | some old =>
    rw [hl] at h
    injection h with h
    subst h
    simpa using cfSize_cfErase sz hl

theorem cfSize_filter_split (sz : K × V → Int) (p : K → Bool) :
    ∀ m : CFMap K V,
      cfSize sz m
        = cfSize sz (m.filter fun e => !p e.1) + cfSize sz (m.filter fun e => p e.1)
  | [] => by simp [cfSize]
  | e :: t => by
    cases hp : p e.1 with
    | true =>
      simp only [List.filter_cons, hp, Bool.not_true, Bool.false_eq_true, if_false,
        if_true, cfSize_cons, cfSize_filter_split sz p t]
      ring
    | false =>
      simp only [List.filter_cons, hp, Bool.not_false, Bool.false_eq_true, if_false,
        if_true, cfSize_cons, cfSize_filter_split sz p t]
      ring

theorem cfMergeFrom_size (sz : K × V → Int) :
    ∀ (s t : CFMap K V),
      cfSize sz (cfMergeFrom sz t s).1 = cfSize sz t + (cfMergeFrom sz t s).2
  | [], t => by simp [cfMergeFrom]
  | e :: rest, t => by
    unfold cfMergeFrom
    cases h : cfInsert sz t e.1 e.2 .allow with
    | none => simpa using cfMergeFrom_size sz rest t
    | some p =>
      obtain ⟨m2, d⟩ := p
      have h1 := cfInsert_size sz h
      have h2 := cfMergeFrom_size sz rest m2
      simp only at h1 ⊢
      rw [h2, h1]
      ring

theorem cfLookup_eq_none_iff {m : CFMap K V} {k : K} :
    cfLookup m k = none ↔ k ∉ m.map Prod.fst := by
  induction m with
  | nil => simp [cfLookup]
  | cons x t ih =>
    by_cases hx : x.1 = k
    · simp [cfLookup, hx]
    · simp only [cfLookup, if_neg hx, List.map_cons, List.mem_cons, ih]
      constructor
      · intro h hc
        rcases hc with hc | hc
        · exact hx hc.symm
        · exact h hc
      · intro h hc
        exact h (Or.inr hc)

theorem cfLookup_append_none {t : CFMap K V} {k : K} (h : cfLookup t k = none)
    (s : CFMap K V) : cfLookup (t ++ s) k = cfLookup s k := by
  induction t with
  | nil => simp
  | cons x r ih =>
    by_cases hx : x.1 = k
    · simp [cfLookup, hx] at h
    · simp only [cfLookup, if_neg hx] at h
      simp only [List.cons_append, cfLookup, if_neg hx]
      exact ih h

theorem cfMergeFrom_disjoint (sz : K × V → Int) :
    ∀ (s t : CFMap K V), cfNodupKeys s → (∀ e ∈ s, cfLookup t e.1 = none) →
      cfMergeFrom sz t s = (t ++ s, cfSize sz s)
  | [], t, _, _ => by simp [cfMergeFrom, cfSize]
  | e :: rest, t, hnd, hdis => by
    have he : cfLookup t e.1 = none := hdis e (by simp)
    have hins : cfInsert sz t e.1 e.2 .allow = some (t ++ [e], sz e) := by
      simp [cfInsert, he]
    have hnd2 : cfNodupKeys rest := by
      simp only [cfNodupKeys, List.map_cons, List.nodup_cons] at hnd
      exact hnd.2
    have hkey : e.1 ∉ rest.map Prod.fst := by
      simp only [cfNodupKeys, List.map_cons, List.nodup_cons] at hnd
      exact hnd.1
    have hdis2 : ∀ x ∈ rest, cfLookup (t ++ [e]) x.1 = none := by
      intro x hx
      have h1 : cfLookup t x.1 = none := hdis x (List.mem_cons_of_mem _ hx)
      rw [cfLookup_append_none h1]
      have hne : e.1 ≠ x.1 := by
        intro hcontra
        exact hkey (hcontra ▸ List.mem_map_of_mem Prod.fst hx)
      simp [cfLookup, hne]
    unfold cfMergeFrom
    rw [hins]
    simp only [cfMergeFrom_disjoint sz rest (t ++ [e]) hnd2 hdis2]
    simp [cfSize_cons, List.append_assoc]

theorem cfSize_szLock (m : CFMap Bytes DecodedLock) : cfSize szLock m = 0 := by
  induction m with
  | nil => rfl
  | cons e t ih => simp [cfSize_cons, szLock, ih]

theorem cfInsert_szLock_delta {m : CFMap Bytes DecodedLock} {k : Bytes}
    {v : DecodedLock} {mode : DupCheck} {p : CFMap Bytes DecodedLock × Int}
    (h : cfInsert szLock m k v mode = some p) : p.2 = 0 := by
  unfold cfInsert at h
  cases hl : cfLookup m k with
  | none =>
    rw [hl] at h
    injection h with h
    subst h
    simp [szLock]
  | some old =>
    rw [hl] at h
    cases mode with
    | deny => simp at h
    | allow =>
      injection h with h
      subst h
      simp [szLock]

theorem cfMergeFrom_szLock_delta :
    ∀ (s t : CFMap Bytes DecodedLock), (cfMergeFrom szLock t s).2 = 0
  | [], t => rfl
  | e :: rest, t => by
    unfold cfMergeFrom
    cases h : cfInsert szLock t e.1 e.2 .allow with
    | none => exact cfMergeFrom_szLock_delta rest t
    | some p =>
      have h1 := cfInsert_szLock_delta h
      simp only [cfMergeFrom_szLock_delta rest p.1, h1]
      simp

theorem cfNodupKeys_filter {m : CFMap K V} (h : cfNodupKeys m) (p : K × V → Bool) :
    cfNodupKeys (m.filter p) :=
  ((List.filter_sublist (p := p) m).map Prod.fst).nodup h

theorem cfLookup_filter_not {m : CFMap K V} (hm : cfNodupKeys m) (p : K × V → Bool)
    {e : K × V} (he : e ∈ m.filter p) :
    cfLookup (m.filter fun x => !p x) e.1 = none := by
  rw [cfLookup_eq_none_iff]
  intro hmem
  obtain ⟨x, hx, hxk⟩ := List.mem_map.mp hmem
  have hx2 : x ∈ m := (List.mem_filter.mp hx).1
  have he2 : e ∈ m := (List.mem_filter.mp he).1
  have hxe : x = e := List.inj_on_of_nodup_map hm hx2 he2 hxk
  subst hxe
  have h1 := (List.mem_filter.mp hx).2
  have h2 := (List.mem_filter.mp he).2
  rw [h2] at h1
  simp at h1

/-! ## Orphan-tracker lemmas -/

theorem observeExtraKey_snapshotIndex (o : OrphanKeysInfo) (k : Bytes) :
    (o.observeExtraKey k).snapshotIndex = o.snapshotIndex := by
  unfold OrphanKeysInfo.observeExtraKey
  split <;> rfl

theorem observeExtraKey_deadlineIndex (o : OrphanKeysInfo) (k : Bytes) :
    (o.observeExtraKey k).deadlineIndex = o.deadlineIndex := by
  unfold OrphanKeysInfo.observeExtraKey
  split <;> rfl

theorem applyOrphanOp_snapshotIndex (o : OrphanKeysInfo) (op : OrphanOp) :
    (applyOrphanOp o op).snapshotIndex = o.snapshotIndex := by
  cases op with
  | extra k => exact observeExtraKey_snapshotIndex o k
  | normalWrite k => rfl

theorem applyOrphanOp_deadlineIndex (o : OrphanKeysInfo) (op : OrphanOp) :
    (applyOrphanOp o op).deadlineIndex = o.deadlineIndex := by
  cases op with
  | extra k => exact observeExtraKey_deadlineIndex o k
  | normalWrite k => rfl

theorem applyOrphanOps_snapshotIndex :
    ∀ (ops : List OrphanOp) (o : OrphanKeysInfo),
      (applyOrphanOps o ops).snapshotIndex = o.snapshotIndex
  | [], o => rfl
  | op :: t, o => by
    show (applyOrphanOps (applyOrphanOp o op) t).snapshotIndex = _
    rw [applyOrphanOps_snapshotIndex t, applyOrphanOp_snapshotIndex]

theorem applyOrphanOps_deadlineIndex :
    ∀ (ops : List OrphanOp) (o : OrphanKeysInfo),
      (applyOrphanOps o ops).deadlineIndex = o.deadlineIndex
  | [], o => rfl
  | op :: t, o => by
    show (applyOrphanOps (applyOrphanOp o op) t).deadlineIndex = _
    rw [applyOrphanOps_deadlineIndex t, applyOrphanOp_deadlineIndex]

theorem mem_observeExtraKey_iff (o : OrphanKeysInfo) (k x : Bytes) :
    x ∈ (o.observeExtraKey k).remainedKeys ↔ x ∈ o.remainedKeys ∨ x = k := by
  unfold OrphanKeysInfo.observeExtraKey
  split
  · next h =>
    have hk : k ∈ o.remainedKeys := by
      simpa using h
    constructor
    · exact Or.inl
    · rintro (hx | rfl)
      · exact hx
      · exact hk
  · simp [List.mem_append]

theorem mem_applyOrphanOp_of_ne (o : OrphanKeysInfo) (op : OrphanOp) (k : Bytes)
    (hop : op ≠ OrphanOp.normalWrite k) (hk : k ∈ o.remainedKeys) :
    k ∈ (applyOrphanOp o op).remainedKeys := by
  cases op with
  | extra x => exact (mem_observeExtraKey_iff o x k).mpr (Or.inl hk)
  | normalWrite x =>
    have hne : ¬(k = x) := by
      intro hc
      exact hop (by rw [hc])
    simp only [applyOrphanOp, OrphanKeysInfo.observeKeyFromNormalWrite]
    simp [List.mem_filter, hk, hne]

theorem mem_applyOrphanOps_of_not_normal :
    ∀ (ops : List OrphanOp) (o : OrphanKeysInfo) (k : Bytes),
      OrphanOp.normalWrite k ∉ ops → k ∈ o.remainedKeys →
        k ∈ (applyOrphanOps o ops).remainedKeys
  | [], o, k, _, hk => hk
  | op :: t, o, k, hops, hk => by
    have h1 : op ≠ OrphanOp.normalWrite k := by
      intro hc
      exact hops (by rw [hc]; exact List.mem_cons_self _ _)
    have h2 : OrphanOp.normalWrite k ∉ t := fun hc => hops (List.mem_cons_of_mem _ hc)
    exact mem_applyOrphanOps_of_not_normal t (applyOrphanOp o op) k h2
      (mem_applyOrphanOp_of_ne o op k h1 hk)

theorem advance_error_of_mem {o : OrphanKeysInfo} {si di : Nat}
    (h1 : o.snapshotIndex = some si) (h2 : o.deadlineIndex = some di)
    {k : Bytes} (hk : k ∈ o.remainedKeys) {applied : Nat} (ha : di ≤ applied) :
    o.advanceAppliedIndex applied
      = .error (.orphanKeysRemain o.remainedKeyCount (o.remainedKeys.headD [])
          o.regionId si di applied) := by
  unfold OrphanKeysInfo.advanceAppliedIndex
  rw [h1, h2]
  have hc : o.remainedKeyCount > 0 := List.length_pos_of_mem hk
  simp [ha, hc]

theorem advance_ok_of_empty {o : OrphanKeysInfo} (hc : o.remainedKeys = [])
    (applied : Nat) : o.advanceAppliedIndex applied = .ok () := by
  unfold OrphanKeysInfo.advanceAppliedIndex
  cases o.deadlineIndex with
  | none => rfl
  | some di =>
    cases o.snapshotIndex with
    | none => rfl
    | some si =>
      have h0 : o.remainedKeyCount = 0 := by
        simp [OrphanKeysInfo.remainedKeyCount, hc]
      simp [h0]

theorem mem_orphanInsertAll :
    ∀ (ks : List Bytes) (o : OrphanKeysInfo) (x : Bytes),
      x ∈ (orphanInsertAll o ks).remainedKeys ↔ x ∈ o.remainedKeys ∨ x ∈ ks
  | [], o, x => by simp [orphanInsertAll]
  | k :: t, o, x => by
    show x ∈ (orphanInsertAll (o.observeExtraKey k) t).remainedKeys ↔ _
    rw [mem_orphanInsertAll t, mem_observeExtraKey_iff]
    simp [or_assoc]

/-! ## Size-invariant preservation -/

theorem sizeInv_insertDefault {rd : RegionData} (h : rd.sizeInv) (pk : Bytes)
    (ts : Nat) (v : Bytes) (mode : DupCheck) {p : RegionData × Int}
    (hp : rd.insertDefault pk ts v mode = some p) : p.1.sizeInv := by
  unfold RegionData.insertDefault at hp
  cases hi : cfInsert szDefault rd.defaultCF (pk, ts) v mode with
  | none => rw [hi] at hp; simp at hp
  | some q =>
    rw [hi] at hp
    injection hp with hp
    subst hp
    have hs := cfInsert_size szDefault hi
    unfold RegionData.sizeInv at h ⊢
    simp only [hs]
    linarith

theorem sizeInv_insertWrite {rd : RegionData} (h : rd.sizeInv) (pk : Bytes)
    (ts : Nat) (v : WriteCFValue) (mode : DupCheck) {p : RegionData × Int}
    (hp : rd.insertWrite pk ts v mode = some p) : p.1.sizeInv := by
  unfold RegionData.insertWrite at hp
  cases hi : cfInsert szWrite rd.writeCF (pk, ts) v mode with
  | none => rw [hi] at hp; simp at hp
  | some q =>
    rw [hi] at hp
    injection hp with hp
    subst hp
    have hs := cfInsert_size szWrite hi
    unfold RegionData.sizeInv at h ⊢
    simp only [hs]
    linarith

theorem sizeInv_insertLock {rd : RegionData} (h : rd.sizeInv) (k : Bytes)
    (l : DecodedLock) (mode : DupCheck) {p : RegionData × Int}
    (hp : rd.insertLock k l mode = some p) : p.1.sizeInv := by
  unfold RegionData.insertLock at hp
  cases hi : cfInsert szLock rd.lockCF k l mode with
  | none => rw [hi] at hp; simp at hp
  | some q =>
    rw [hi] at hp
    injection hp with hp
    subst hp
    exact h

theorem sizeInv_removeDefault {rd : RegionData} (h : rd.sizeInv) (pk : Bytes)
    (ts : Nat) : (rd.removeDefault pk ts).sizeInv := by
  unfold RegionData.removeDefault
  cases hr : cfRemove szDefault rd.defaultCF (pk, ts) true with
  | none => exact h
  | some q =>
    have hs := cfRemove_size szDefault hr
    unfold RegionData.sizeInv at h ⊢
    simp only [hs]
    linarith

theorem sizeInv_removeWrite {rd : RegionData} (h : rd.sizeInv) (pk : Bytes)
    (ts : Nat) : (rd.removeWrite pk ts).sizeInv := by
  unfold RegionData.removeWrite
  cases hr : cfRemove szWrite rd.writeCF (pk, ts) true with
  | none => exact h
  | some q =>
    have hs := cfRemove_size szWrite hr
    unfold RegionData.sizeInv at h ⊢
    simp only [hs]
    linarith

theorem sizeInv_removeLock {rd : RegionData} (h : rd.sizeInv) (k : Bytes) :
    (rd.removeLock k).sizeInv := by
  unfold RegionData.removeLock
  cases hr : cfRemove szLock rd.lockCF k true with
  | none => exact h
  | some q => exact h

theorem sizeInv_removeDataByWriteIt {rd : RegionData} (h : rd.sizeInv)
    (pk : Bytes) (ts : Nat) : (rd.removeDataByWriteIt pk ts).sizeInv := by
  cases hl : cfLookup rd.writeCF (pk, ts) with
  | none => simpa [RegionData.removeDataByWriteIt, hl] using h
  | some wv =>
    have hw := cfSize_cfErase szWrite hl
    by_cases hput : wv.writeType = WriteType.put
    · cases hdl : cfLookup rd.defaultCF (pk, wv.prewriteTs) with
      | none =>
        simp only [RegionData.removeDataByWriteIt, hl, if_pos hput, hdl]
        unfold RegionData.sizeInv at h ⊢
        simp only [hw]
        linarith
      | some dv =>
        have hd := cfSize_cfErase szDefault hdl
        simp only [RegionData.removeDataByWriteIt, hl, if_pos hput, hdl]
        unfold RegionData.sizeInv at h ⊢
        simp only [hw, hd]
        linarith
    · simp only [RegionData.removeDataByWriteIt, hl, if_neg hput]
      unfold RegionData.sizeInv at h ⊢
      simp only [hw]
      linarith

theorem sizeInv_splitInto {rd nrd : RegionData} (h1 : rd.sizeInv) (h2 : nrd.sizeInv)
    (range : RegionRange) :
    (rd.splitInto range nrd).1.sizeInv ∧ (rd.splitInto range nrd).2.sizeInv := by
  unfold RegionData.splitInto
  have hd := cfSize_filter_split szDefault (fun k => inRange range k.1) rd.defaultCF
  have hw := cfSize_filter_split szWrite (fun k => inRange range k.1) rd.writeCF
  have hl := cfSize_szLock (rd.lockCF.filter fun e => inRange range e.1)
  unfold cfSplitInto
  unfold RegionData.sizeInv at h1 h2 ⊢
  constructor
  · simp only []
    linarith
  · simp only [cfSize_append]
    linarith

theorem sizeInv_mergeFrom {rd ori : RegionData} (h : rd.sizeInv) :
    (rd.mergeFrom ori).sizeInv := by
  unfold RegionData.mergeFrom
  have hd := cfMergeFrom_size szDefault ori.defaultCF rd.defaultCF
  have hw := cfMergeFrom_size szWrite ori.writeCF rd.writeCF
  have hl := cfMergeFrom_szLock_delta ori.lockCF rd.lockCF
  unfold RegionData.sizeInv at h ⊢
  simp only []
  linarith

theorem sizeInv_applySingleOp {rd : RegionData} (h : rd.sizeInv)
    (op : RegionSingleOp) : (applySingleOp rd op).sizeInv := by
  cases op with
  | insDefault pk ts v mode =>
    cases hp : rd.insertDefault pk ts v mode with
    | none => simpa [applySingleOp, hp] using h
    | some p =>
      obtain ⟨rd2, d⟩ := p
      simpa [applySingleOp, hp] using sizeInv_insertDefault h pk ts v mode hp
  | insWrite pk ts v mode =>
    cases hp : rd.insertWrite pk ts v mode with
    | none => simpa [applySingleOp, hp] using h
    | some p =>
      obtain ⟨rd2, d⟩ := p
      simpa [applySingleOp, hp] using sizeInv_insertWrite h pk ts v mode hp
  | insLock k l mode =>
    cases hp : rd.insertLock k l mode with
    | none => simpa [applySingleOp, hp] using h
    | some p =>
      obtain ⟨rd2, d⟩ := p
      simpa [applySingleOp, hp] using sizeInv_insertLock h k l mode hp
  | remDefault pk ts => exact sizeInv_removeDefault h pk ts
  | remWrite pk ts => exact sizeInv_removeWrite h pk ts
  | remLock k => exact sizeInv_removeLock h k
  | removeByWriteIt pk ts => exact sizeInv_removeDataByWriteIt h pk ts

theorem sizeInv_applyRegionOp {s : RegionData × RegionData}
    (h1 : s.1.sizeInv) (h2 : s.2.sizeInv) (op : RegionOp) :
    (applyRegionOp s op).1.sizeInv ∧ (applyRegionOp s op).2.sizeInv := by
  cases op with
  | onA op => exact ⟨sizeInv_applySingleOp h1 op, h2⟩
  | onB op => exact ⟨h1, sizeInv_applySingleOp h2 op⟩
  | splitAB range => exact sizeInv_splitInto h1 h2 range
  | splitBA range =>
    have := sizeInv_splitInto h2 h1 range
    exact ⟨this.2, this.1⟩
  | mergeAB => exact ⟨sizeInv_mergeFrom h1, h2⟩
  | mergeBA => exact ⟨h1, sizeInv_mergeFrom h2⟩

theorem sizeInv_applyRegionOps :
    ∀ (ops : List RegionOp) (s : RegionData × RegionData),
      s.1.sizeInv → s.2.sizeInv →
        (applyRegionOps s ops).1.sizeInv ∧ (applyRegionOps s ops).2.sizeInv
  | [], s, h1, h2 => ⟨h1, h2⟩
  | op :: t, s, h1, h2 => by
    have hstep := sizeInv_applyRegionOp h1 h2 op
    exact sizeInv_applyRegionOps t (applyRegionOp s op) hstep.1 hstep.2

theorem filter_not_append_filter_perm {α : Type} (pe : α → Bool) (l : List α) :
    List.Perm (l.filter (fun x => !pe x) ++ l.filter pe) l := by
  have h := List.filter_append_perm (fun x => !pe x) l
  simpa using h

theorem getLockInfoScan_eq_filter_head (q : RegionLockReadQuery) :
    ∀ m : CFMap Bytes DecodedLock,
      getLockInfoScan q m = ((m.filter fun e => lockBlocking q e.2).head?).map Prod.snd
  | [] => rfl
  | (k, l) :: t => by
    by_cases h1 : l.lockVersion > q.readTso ∨ l.lockType = LockOp.lockOp
        ∨ l.lockType = LockOp.pessimisticLock
    · have hb : lockBlocking q l = false := by
        simp [lockBlocking, h1]
      simp [getLockInfoScan, h1, List.filter_cons, hb,
        getLockInfoScan_eq_filter_head q t]
    · by_cases h2 : l.minCommitTs > q.readTso
      · have hb : lockBlocking q l = false := by
          simp [lockBlocking, h2]
        simp [getLockInfoScan, h1, h2, List.filter_cons, hb,
          getLockInfoScan_eq_filter_head q t]
      · cases hby : q.bypassLockTs with
        | none =>
          have hb : lockBlocking q l = true := by
            simp [lockBlocking, h1, h2, hby]
          simp [getLockInfoScan, h1, h2, hby, List.filter_cons, hb]
        | some bs =>
          by_cases h3 : l.lockVersion ∈ bs
          · have hb : lockBlocking q l = false := by
              simp [lockBlocking, hby, h3]
            simp [getLockInfoScan, h1, h2, hby, h3, List.filter_cons, hb,
              getLockInfoScan_eq_filter_head q t]
          · have hb : lockBlocking q l = true := by
              simp [lockBlocking, h1, h2, hby, h3]
            simp [getLockInfoScan, h1, h2, hby, h3, List.filter_cons, hb]

/-! ## Claim theorems -/

/-- C1 (corrected): for a Write-family entry with writeType Put, no embedded
    short value, no matching Default entry at `(pk, prewriteTs)`, the orphan
    tracker neither pre-handling nor holding a snapshot index, a call of
    `readDataByWriteIt` with needValue = true and hardError = true fails with
    IllFormatRaftRow, carrying the primary key, prewrite timestamp, region id
    and applied index in the diagnostic.  (The hardError = true condition is
    forced by the counterexample: with hardError = false the same state
    returns "not yet resolvable" instead of failing.) -/
theorem c1_missing_default_fails_hard (rd : RegionData) (pk : Bytes) (ts : Nat)
    (wv : WriteCFValue) (regionId appliedIndex : Nat)
    (hpk : pk ≠ []) (hput : wv.writeType = WriteType.put)
    (hsv : wv.shortValue = none)
    (hmiss : cfLookup rd.defaultCF (pk, wv.prewriteTs) = none)
    (hph : rd.orphanKeysInfo.preHandling = false)
    (hsnap : rd.orphanKeysInfo.snapshotIndex = none) :
    rd.readDataByWriteIt pk ts wv true regionId appliedIndex true
      = .error (.illFormatMissingDefault pk wv.prewriteTs regionId appliedIndex) := by
  simp [RegionData.readDataByWriteIt, hpk, hput, hsv, hmiss]

/-- C1 witness: the amended theorem applied at the spec's `u2` scenario. -/
theorem c1_missing_default_fails_hard_witness :
    RegionData.empty.readDataByWriteIt [117, 50] 5
        ⟨WriteType.put, 4, none⟩ true 7 3 true
      = .error (.illFormatMissingDefault [117, 50] 4 7 3) :=
  c1_missing_default_fails_hard RegionData.empty [117, 50] 5
    ⟨WriteType.put, 4, none⟩ 7 3 (by decide) rfl rfl rfl rfl rfl

/-- C1 counterexample: at a concrete instance of the claim's conditions
    (Put, no short value, no matching Default, tracker inert) but with
    hardError = false, the call returns the "not yet resolvable" result
    instead of failing with IllFormatRaftRow. -/
theorem c1_counterexample :
    RegionData.empty.readDataByWriteIt [117, 50] 5
        ⟨WriteType.put, 4, none⟩ true 7 3 false
      = .ok (OrphanKeysInfo.init, none) := by
  decide

/-- C2: for a tracker state with both snapshotIndex and deadlineIndex set,
    after `observeExtraKey k` and any further observations that never include
    `observeKeyFromNormalWrite k`, advancing the applied index to the
    deadline fails fatally; and for any such state where
    `observeKeyFromNormalWrite` removes the last remained key, advancing to
    the deadline succeeds without error. -/
theorem c2_orphan_deadline (o : OrphanKeysInfo) (si di : Nat)
    (h1 : o.snapshotIndex = some si) (h2 : o.deadlineIndex = some di)
    (k : Bytes) (ops : List OrphanOp) (hops : OrphanOp.normalWrite k ∉ ops)
    (o2 : OrphanKeysInfo) (si2 di2 : Nat)
    (h3 : o2.snapshotIndex = some si2) (h4 : o2.deadlineIndex = some di2)
    (k2 : Bytes) (h5 : (o2.observeKeyFromNormalWrite k2).1.remainedKeys = []) :
    (∃ f, (applyOrphanOps (o.observeExtraKey k) ops).advanceAppliedIndex di
        = .error f)
    ∧ (o2.observeKeyFromNormalWrite k2).1.advanceAppliedIndex di2 = .ok () := by
  constructor
  · have hsnap : (applyOrphanOps (o.observeExtraKey k) ops).snapshotIndex = some si := by
      rw [applyOrphanOps_snapshotIndex, observeExtraKey_snapshotIndex, h1]
    have hdead : (applyOrphanOps (o.observeExtraKey k) ops).deadlineIndex = some di := by
      rw [applyOrphanOps_deadlineIndex, observeExtraKey_deadlineIndex, h2]
    have hmem : k ∈ (applyOrphanOps (o.observeExtraKey k) ops).remainedKeys :=
      mem_applyOrphanOps_of_not_normal ops (o.observeExtraKey k) k hops
        ((mem_observeExtraKey_iff o k k).mpr (Or.inr rfl))
    exact ⟨_, advance_error_of_mem hsnap hdead hmem (le_refl di)⟩
  · exact advance_ok_of_empty h5 di2

/-- C2 witness: the spec's `u3` scenario — an extra key observed, an unrelated
    key also observed, deadline reached with the key unresolved (fatal); and a
    state whose last remained key is resolved before the deadline (success). -/
theorem c2_orphan_deadline_witness :
    (∃ f, (applyOrphanOps
          ((OrphanKeysInfo.mk [] (some 1) (some 5) false 2).observeExtraKey [3])
          [OrphanOp.extra [4]]).advanceAppliedIndex 5 = .error f)
    ∧ ((OrphanKeysInfo.mk [[9]] (some 1) (some 5) false 2).observeKeyFromNormalWrite
          [9]).1.advanceAppliedIndex 5 = .ok () :=
  c2_orphan_deadline (OrphanKeysInfo.mk [] (some 1) (some 5) false 2) 1 5 rfl rfl
    [3] [OrphanOp.extra [4]] (by decide)
    (OrphanKeysInfo.mk [[9]] (some 1) (some 5) false 2) 1 5 rfl rfl [9] (by decide)

/-- C3: for every pair of region datas whose tracked byte-size counter equals
    the sum of the serialized sizes of their Default and Write entries, any
    sequence of insert / remove / removeDataByWriteIt / splitInto / mergeFrom
    operations preserves that equality on both regions: each operation updates
    the counter together with the mutation. -/
theorem c3_size_counter_invariant (A B : RegionData) (hA : A.sizeInv)
    (hB : B.sizeInv) (ops : List RegionOp) :
    (applyRegionOps (A, B) ops).1.sizeInv ∧ (applyRegionOps (A, B) ops).2.sizeInv :=
  sizeInv_applyRegionOps ops (A, B) hA hB

/-- C3 witness: a history with inserts in all three families, a split, a
    merge, a GC removal and a cascading write removal, starting from two
    empty regions. -/
theorem c3_size_counter_invariant_witness :
    (applyRegionOps (RegionData.empty, RegionData.empty)
        [RegionOp.onA (.insDefault [117] 10 [5, 6] .allow),
         RegionOp.onA (.insWrite [117] 11 ⟨WriteType.put, 10, none⟩ .allow),
         RegionOp.onA (.insLock [3] ⟨8, LockOp.put, 9, [117]⟩ .allow),
         RegionOp.splitAB ⟨[117], none⟩,
         RegionOp.mergeAB,
         RegionOp.onA (.remDefault [200] 4),
         RegionOp.onA (.removeByWriteIt [117] 11)]).1.sizeInv
    ∧ (applyRegionOps (RegionData.empty, RegionData.empty)
        [RegionOp.onA (.insDefault [117] 10 [5, 6] .allow),
         RegionOp.onA (.insWrite [117] 11 ⟨WriteType.put, 10, none⟩ .allow),
         RegionOp.onA (.insLock [3] ⟨8, LockOp.put, 9, [117]⟩ .allow),
         RegionOp.splitAB ⟨[117], none⟩,
         RegionOp.mergeAB,
         RegionOp.onA (.remDefault [200] 4),
         RegionOp.onA (.removeByWriteIt [117] 11)]).2.sizeInv :=
  c3_size_counter_invariant RegionData.empty RegionData.empty (by decide) (by decide) _

/-- C4: `getLockInfo` returns exactly the first entry of the Lock store (in
    store order) that survives the skip rules — and therefore never returns a
    lock created after the read snapshot (`lockVersion > readTso`), a
    non-blocking intention lock (`Lock` / `PessimisticLock`), a lock with
    `minCommitTs > readTso`, or a bypassed lock version; `none` when every
    entry is skipped. -/
theorem c4_getLockInfo_skip_rules (rd : RegionData) (q : RegionLockReadQuery) :
    rd.getLockInfo q
        = ((rd.lockCF.filter fun e => lockBlocking q e.2).head?).map Prod.snd
      ∧ (rd.getLockInfo q).all (fun l =>
          decide (l.lockVersion ≤ q.readTso) && decide (¬l.lockType = LockOp.lockOp)
            && decide (¬l.lockType = LockOp.pessimisticLock)
            && decide (l.minCommitTs ≤ q.readTso)
            && !(match q.bypassLockTs with
                 | some bs => bs.contains l.lockVersion
                 | none => false)) = true := by
  have hmain := getLockInfoScan_eq_filter_head q rd.lockCF
  refine ⟨hmain, ?_⟩
  show ((rd.getLockInfo q).all _) = true
  rw [show rd.getLockInfo q = _ from hmain]
  cases hh : (rd.lockCF.filter fun e => lockBlocking q e.2).head? with
  | none => rfl
  | some e =>
    have he : e ∈ rd.lockCF.filter fun x => lockBlocking q x.2 :=
      List.mem_of_mem_head? (by simp [hh])
    have hbl := List.of_mem_filter he
    simp only [lockBlocking, Bool.and_eq_true] at hbl
    obtain ⟨⟨hX, hY⟩, hZ⟩ := hbl
    simp only [Bool.not_eq_true', decide_eq_false_iff_not, not_or, not_lt] at hX hY
    simp only [Bool.not_eq_true'] at hZ
    simp [Option.all, hX.1, hX.2.1, hX.2.2, hY]
    simpa using hZ

/-- C5: for a Write entry with writeType Put and non-empty primary key,
    `readDataByWriteIt` with needValue = true returns an embedded short value
    directly — independently of the Default store — and, when there is no
    short value but a matching Default entry at `(pk, prewriteTs)` exists,
    returns exactly that Default entry's value together with
    `(pk, Put, commitTs)`. -/
theorem c5_put_value_resolution (rd : RegionData) (pk : Bytes) (ts : Nat)
    (regionId appliedIndex : Nat) (hardError : Bool) (sv dv : Bytes)
    (w1 w2 : WriteCFValue) (dcf : CFMap DefaultKey Bytes)
    (hpk : pk ≠ [])
    (h1put : w1.writeType = WriteType.put) (h1sv : w1.shortValue = some sv)
    (h2put : w2.writeType = WriteType.put) (h2sv : w2.shortValue = none)
    (h2look : cfLookup rd.defaultCF (pk, w2.prewriteTs) = some dv) :
    ({ rd with defaultCF := dcf }).readDataByWriteIt pk ts w1 true
        regionId appliedIndex hardError
      = .ok (rd.orphanKeysInfo, some (pk, WriteType.put, ts, some sv))
    ∧ rd.readDataByWriteIt pk ts w2 true regionId appliedIndex hardError
      = .ok (rd.orphanKeysInfo, some (pk, WriteType.put, ts, some dv)) := by
  constructor
  · simp [RegionData.readDataByWriteIt, hpk, h1put, h1sv]
  · simp [RegionData.readDataByWriteIt, hpk, h2put, h2sv, h2look]

/-- C5 witness: the spec's `u1` scenario for the Default-lookup part, and a
    short-value entry resolved against an unrelated Default store. -/
theorem c5_put_value_resolution_witness :
    ({ RegionData.empty with
        defaultCF := [(([117, 49], 10), [118, 49])] } : RegionData).readDataByWriteIt
        [117, 49] 11 ⟨WriteType.put, 10, some [99]⟩ true 7 3 false
      = .ok (OrphanKeysInfo.init, some ([117, 49], WriteType.put, 11, some [99]))
    ∧ ({ RegionData.empty with
        defaultCF := [(([117, 49], 10), [118, 49])] } : RegionData).readDataByWriteIt
        [117, 49] 11 ⟨WriteType.put, 10, none⟩ true 7 3 false
      = .ok (OrphanKeysInfo.init, some ([117, 49], WriteType.put, 11, some [118, 49])) :=
  c5_put_value_resolution
    { RegionData.empty with defaultCF := [(([117, 49], 10), [118, 49])] }
    [117, 49] 11 7 3 false [99] [118, 49]
    ⟨WriteType.put, 10, some [99]⟩ ⟨WriteType.put, 10, none⟩
    [(([117, 49], 10), [118, 49])]
    (by decide) rfl rfl rfl rfl (by decide)

/-- C6: for every well-formed RegionData `A` and every half-open key range,
    splitting into a fresh empty RegionData and merging the result back
    restores `A`'s original content in all three family stores and its
    original tracked size (`isEqual` in the sense of `RegionData::isEqual`). -/
theorem c6_split_merge_roundtrip (A : RegionData) (hwf : A.wellFormed)
    (range : RegionRange) :
    ((A.splitInto range RegionData.empty).1.mergeFrom
        (A.splitInto range RegionData.empty).2).isEqual A := by
  obtain ⟨hd, hw, hl⟩ := hwf
  have hdm := cfMergeFrom_disjoint szDefault
    (A.defaultCF.filter fun e => (fun k : DefaultKey => inRange range k.1) e.1)
    (A.defaultCF.filter fun e => !(fun k : DefaultKey => inRange range k.1) e.1)
    (cfNodupKeys_filter hd _)
    (fun e he => cfLookup_filter_not hd _ he)
  have hwm := cfMergeFrom_disjoint szWrite
    (A.writeCF.filter fun e => (fun k : WriteKey => inRange range k.1) e.1)
    (A.writeCF.filter fun e => !(fun k : WriteKey => inRange range k.1) e.1)
    (cfNodupKeys_filter hw _)
    (fun e he => cfLookup_filter_not hw _ he)
  have hlm := cfMergeFrom_disjoint szLock
    (A.lockCF.filter fun e => (fun k : Bytes => inRange range k) e.1)
    (A.lockCF.filter fun e => !(fun k : Bytes => inRange range k) e.1)
    (cfNodupKeys_filter hl _)
    (fun e he => cfLookup_filter_not hl _ he)
  simp only [RegionData.splitInto, cfSplitInto, RegionData.mergeFrom,
    RegionData.empty, List.nil_append] at hdm hwm hlm ⊢
  rw [hdm, hwm, hlm]
  refine ⟨?_, ?_, ?_, ?_⟩
  · exact filter_not_append_filter_perm _ A.defaultCF
  · exact filter_not_append_filter_perm _ A.writeCF
  · exact filter_not_append_filter_perm _ A.lockCF
  · simp only []
    ring

/-- C6 witness: a three-family region split at a mid-range key and merged
    back. -/
theorem c6_split_merge_roundtrip_witness :
    ((({ defaultCF := [(([117], 10), [5]), (([200], 4), [7, 7])]
         writeCF := [(([117], 11), ⟨WriteType.put, 10, none⟩)]
         lockCF := [([3], ⟨8, LockOp.put, 9, [117]⟩), ([150], ⟨2, LockOp.del, 3, [150]⟩)]
         cfDataSize := 17
         orphanKeysInfo := OrphanKeysInfo.init } : RegionData).splitInto
          ⟨[100], none⟩ RegionData.empty).1.mergeFrom
        (({ defaultCF := [(([117], 10), [5]), (([200], 4), [7, 7])]
            writeCF := [(([117], 11), ⟨WriteType.put, 10, none⟩)]
            lockCF := [([3], ⟨8, LockOp.put, 9, [117]⟩), ([150], ⟨2, LockOp.del, 3, [150]⟩)]
            cfDataSize := 17
            orphanKeysInfo := OrphanKeysInfo.init } : RegionData).splitInto
          ⟨[100], none⟩ RegionData.empty).2).isEqual
      { defaultCF := [(([117], 10), [5]), (([200], 4), [7, 7])]
        writeCF := [(([117], 11), ⟨WriteType.put, 10, none⟩)]
        lockCF := [([3], ⟨8, LockOp.put, 9, [117]⟩), ([150], ⟨2, LockOp.del, 3, [150]⟩)]
        cfDataSize := 17
        orphanKeysInfo := OrphanKeysInfo.init } :=
  c6_split_merge_roundtrip
    { defaultCF := [(([117], 10), [5]), (([200], 4), [7, 7])]
      writeCF := [(([117], 11), ⟨WriteType.put, 10, none⟩)]
      lockCF := [([3], ⟨8, LockOp.put, 9, [117]⟩), ([150], ⟨2, LockOp.del, 3, [150]⟩)]
      cfDataSize := 17
      orphanKeysInfo := OrphanKeysInfo.init }
    (by decide) ⟨[100], none⟩

/-- C7: for every RegionData satisfying the tracked-size invariant (including
    empty stores), deserializing the output of serialize consumes the whole
    stream and yields the three family stores unchanged with the tracked size
    recomputed from the decoded entries; the result is `isEqual` to the
    original. -/
theorem c7_serialize_roundtrip (rd : RegionData) (hinv : rd.sizeInv) :
    RegionData.deserialize rd.serialize
        = some ({ defaultCF := rd.defaultCF, writeCF := rd.writeCF
                  lockCF := rd.lockCF
                  cfDataSize := cfSize szDefault rd.defaultCF
                    + cfSize szWrite rd.writeCF + cfSize szLock rd.lockCF
                  orphanKeysInfo := OrphanKeysInfo.init }, [])
      ∧ ({ defaultCF := rd.defaultCF, writeCF := rd.writeCF, lockCF := rd.lockCF
           cfDataSize := cfSize szDefault rd.defaultCF + cfSize szWrite rd.writeCF
             + cfSize szLock rd.lockCF
           orphanKeysInfo := OrphanKeysInfo.init } : RegionData).isEqual rd := by
  constructor
  · simp only [RegionData.serialize, RegionData.deserialize, List.append_assoc,
      cfDeserialize_cfSerialize decDefaultEntry encDefaultEntry decDefaultEntry_enc,
      cfDeserialize_cfSerialize decWriteEntry encWriteEntry decWriteEntry_enc,
      cfDeserialize_cfSerialize_nil decLockEntry encLockEntry decLockEntry_enc]
  · refine ⟨List.Perm.refl _, List.Perm.refl _, List.Perm.refl _, ?_⟩
    rw [cfSize_szLock]
    unfold RegionData.sizeInv at hinv
    simp only []
    linarith

/-- C7 witness: a populated three-family region round-trips through
    serialize and deserialize. -/
theorem c7_serialize_roundtrip_witness :
    RegionData.deserialize
        ({ defaultCF := [(([117], 10), [5])]
           writeCF := [(([117], 11), ⟨WriteType.put, 10, none⟩)]
           lockCF := [([3], ⟨8, LockOp.put, 9, [117]⟩)]
           cfDataSize := 11
           orphanKeysInfo := OrphanKeysInfo.init } : RegionData).serialize
        = some ({ defaultCF := [(([117], 10), [5])]
                  writeCF := [(([117], 11), ⟨WriteType.put, 10, none⟩)]
                  lockCF := [([3], ⟨8, LockOp.put, 9, [117]⟩)]
                  cfDataSize := cfSize szDefault [(([117], 10), [5])]
                    + cfSize szWrite [(([117], 11), ⟨WriteType.put, 10, none⟩)]
                    + cfSize szLock [([3], ⟨8, LockOp.put, 9, [117]⟩)]
                  orphanKeysInfo := OrphanKeysInfo.init }, [])
      ∧ ({ defaultCF := [(([117], 10), [5])]
           writeCF := [(([117], 11), ⟨WriteType.put, 10, none⟩)]
           lockCF := [([3], ⟨8, LockOp.put, 9, [117]⟩)]
           cfDataSize := cfSize szDefault [(([117], 10), [5])]
             + cfSize szWrite [(([117], 11), ⟨WriteType.put, 10, none⟩)]
             + cfSize szLock [([3], ⟨8, LockOp.put, 9, [117]⟩)]
           orphanKeysInfo := OrphanKeysInfo.init } : RegionData).isEqual
          { defaultCF := [(([117], 10), [5])]
            writeCF := [(([117], 11), ⟨WriteType.put, 10, none⟩)]
            lockCF := [([3], ⟨8, LockOp.put, 9, [117]⟩)]
            cfDataSize := 11
            orphanKeysInfo := OrphanKeysInfo.init } :=
  c7_serialize_roundtrip
    { defaultCF := [(([117], 10), [5])]
      writeCF := [(([117], 11), ⟨WriteType.put, 10, none⟩)]
      lockCF := [([3], ⟨8, LockOp.put, 9, [117]⟩)]
      cfDataSize := 11
      orphanKeysInfo := OrphanKeysInfo.init }
    (by decide)

/-- C8: Lock-family operations never change the tracked byte-size counter:
    a Lock insert returns delta 0 and leaves the counter unchanged, a Lock
    removal leaves it unchanged, and splitInto / mergeFrom move the Lock
    entries between the instances while the size transferred between the two
    counters comes from the Default and Write families only. -/
theorem c8_lock_never_counted (rd nrd B : RegionData) (k : Bytes)
    (l : DecodedLock) (mode : DupCheck) (range : RegionRange) :
    ((rd.insertLock k l mode).all fun p =>
        decide (p.1.cfDataSize = rd.cfDataSize) && decide (p.2 = 0)) = true
    ∧ (rd.removeLock k).cfDataSize = rd.cfDataSize
    ∧ (rd.splitInto range nrd).1.cfDataSize
        = rd.cfDataSize
            - (cfSize szDefault (rd.defaultCF.filter fun e => inRange range e.1.1)
               + cfSize szWrite (rd.writeCF.filter fun e => inRange range e.1.1))
    ∧ (rd.splitInto range nrd).2.cfDataSize
        = nrd.cfDataSize
            + (cfSize szDefault (rd.defaultCF.filter fun e => inRange range e.1.1)
               + cfSize szWrite (rd.writeCF.filter fun e => inRange range e.1.1))
    ∧ (rd.splitInto range nrd).1.lockCF
        = rd.lockCF.filter (fun e => !inRange range e.1)
    ∧ (rd.splitInto range nrd).2.lockCF
        = nrd.lockCF ++ rd.lockCF.filter (fun e => inRange range e.1)
    ∧ (rd.mergeFrom B).cfDataSize
        = rd.cfDataSize + ((cfMergeFrom szDefault rd.defaultCF B.defaultCF).2
            + (cfMergeFrom szWrite rd.writeCF B.writeCF).2)
    ∧ (rd.mergeFrom B).lockCF = (cfMergeFrom szLock rd.lockCF B.lockCF).1 := by
  refine ⟨?_, ?_, ?_, ?_, ?_, ?_, ?_, ?_⟩
  · cases hi : cfInsert szLock rd.lockCF k l mode with
    | none => simp [RegionData.insertLock, hi]
    | some p => simp [RegionData.insertLock, hi, Option.all]
  · cases hr : cfRemove szLock rd.lockCF k true with
    | none => simp [RegionData.removeLock, hr]
    | some p => simp [RegionData.removeLock, hr]
  · simp only [RegionData.splitInto, cfSplitInto]
    rw [cfSize_szLock]
    ring
  · simp only [RegionData.splitInto, cfSplitInto]
    rw [cfSize_szLock]
    ring
  · simp only [RegionData.splitInto, cfSplitInto]
  · simp only [RegionData.splitInto, cfSplitInto]
  · simp only [RegionData.mergeFrom]
    rw [cfMergeFrom_szLock_delta]
    ring
  · simp only [RegionData.mergeFrom]

/-- C9: `RegionData::mergeFrom` merges only the three family stores and the
    size: the target's orphan tracker is left untouched and the source's
    tracker state (remained keys, snapshot index, deadline index,
    pre-handling flag) is dropped — even though `OrphanKeysInfo::mergeFrom`,
    which unions remained-key sets, is available. -/
theorem c9_mergeFrom_drops_orphan_tracker (rd ori : RegionData)
    (o1 o2 : OrphanKeysInfo) (x : Bytes) :
    (rd.mergeFrom ori).orphanKeysInfo = rd.orphanKeysInfo
    ∧ (x ∈ (o1.mergeFrom o2).remainedKeys
        ↔ x ∈ o1.remainedKeys ∨ x ∈ o2.remainedKeys) :=
  ⟨rfl, mem_orphanInsertAll o2.remainedKeys o1 x⟩

/-- C10 (corrected): for a Put Write entry with non-empty primary key, no
    short value and no matching Default entry, `readDataByWriteIt` with
    needValue = true and hardError = false returns the "not yet resolvable"
    result on every path — provided the tracker is not in the degenerate
    state preHandling with no snapshotIndex, where an internal runtime check
    fails instead (see the counterexample) — and an error returned by any
    such hardError = false call is never IllFormatRaftRow: the fatal
    missing-Default branch is reachable only when hardError = true. -/
theorem c10_soft_error_no_illformat (rd rdX : RegionData) (pk : Bytes) (ts : Nat)
    (wv : WriteCFValue) (regionId appliedIndex : Nat)
    (hpk : pk ≠ []) (hput : wv.writeType = WriteType.put)
    (hsv : wv.shortValue = none)
    (hmiss : cfLookup rd.defaultCF (pk, wv.prewriteTs) = none)
    (hck : ¬(rd.orphanKeysInfo.preHandling = true
        ∧ rd.orphanKeysInfo.snapshotIndex = none))
    (e : RDError)
    (he : rdX.readDataByWriteIt pk ts wv true regionId appliedIndex false
        = .error e) :
    rd.readDataByWriteIt pk ts wv true regionId appliedIndex false
        = .ok ((if rd.orphanKeysInfo.preHandling then
            rd.orphanKeysInfo.observeExtraKey (rawWriteKey pk ts)
          else rd.orphanKeysInfo), none)
      ∧ e.isIllFormatRaftRow = false := by
  constructor
  · by_cases hph : rd.orphanKeysInfo.preHandling
    · cases hs : rd.orphanKeysInfo.snapshotIndex with
      | none => exact absurd ⟨hph, hs⟩ hck
      | some si =>
        simp [RegionData.readDataByWriteIt, hpk, hput, hsv, hmiss, hph, hs]
    · cases hs : rd.orphanKeysInfo.snapshotIndex with
      | none =>
        simp [RegionData.readDataByWriteIt, hpk, hput, hsv, hmiss, hph, hs]
      | some si =>
        simp [RegionData.readDataByWriteIt, hpk, hput, hsv, hmiss, hph, hs]
  · cases hmx : cfLookup rdX.defaultCF (pk, wv.prewriteTs) with
    | some dv =>
      simp [RegionData.readDataByWriteIt, hpk, hput, hsv, hmx] at he
    | none =>
      by_cases hphX : rdX.orphanKeysInfo.preHandling
      · cases hsX : rdX.orphanKeysInfo.snapshotIndex with
        | none =>
          simp [RegionData.readDataByWriteIt, hpk, hput, hsv, hmx, hphX, hsX] at he
          rw [← he]
          rfl
        | some si =>
          simp [RegionData.readDataByWriteIt, hpk, hput, hsv, hmx, hphX, hsX] at he
      · cases hsX : rdX.orphanKeysInfo.snapshotIndex with
        | none =>
          simp [RegionData.readDataByWriteIt, hpk, hput, hsv, hmx, hphX, hsX] at he
        | some si =>
          simp [RegionData.readDataByWriteIt, hpk, hput, hsv, hmx, hphX, hsX] at he

/-- C10 witness: a pre-handling tracker with a snapshot window buffers the
    key and reports "not yet resolvable", while the degenerate
    pre-handling-without-snapshot state trips the runtime check (never an
    IllFormatRaftRow). -/
theorem c10_soft_error_no_illformat_witness :
    ({ RegionData.empty with
        orphanKeysInfo := { OrphanKeysInfo.init with
          preHandling := true, snapshotIndex := some 1 } } : RegionData).readDataByWriteIt
        [117, 50] 5 ⟨WriteType.put, 4, none⟩ true 7 3 false
      = .ok ((if ({ OrphanKeysInfo.init with
              preHandling := true, snapshotIndex := some 1 } : OrphanKeysInfo).preHandling then
            ({ OrphanKeysInfo.init with
              preHandling := true, snapshotIndex := some 1 } : OrphanKeysInfo).observeExtraKey
              (rawWriteKey [117, 50] 5)
          else { OrphanKeysInfo.init with
            preHandling := true, snapshotIndex := some 1 }), none)
      ∧ RDError.runtimeCheckFailed.isIllFormatRaftRow = false :=
  c10_soft_error_no_illformat
    { RegionData.empty with
      orphanKeysInfo := { OrphanKeysInfo.init with
        preHandling := true, snapshotIndex := some 1 } }
    { RegionData.empty with
      orphanKeysInfo := { OrphanKeysInfo.init with preHandling := true } }
    [117, 50] 5 ⟨WriteType.put, 4, none⟩ 7 3
    (by decide) rfl rfl rfl (by decide) RDError.runtimeCheckFailed (by decide)

/-- C10 counterexample: in the degenerate tracker state (preHandling set,
    snapshotIndex unset) the hardError = false call does not return the
    "not yet resolvable" result — it fails the internal runtime check — so
    the claim's "returns nullopt on every path" is false as stated. -/
theorem c10_counterexample :
    ({ RegionData.empty with
        orphanKeysInfo := { OrphanKeysInfo.init with
          preHandling := true } } : RegionData).readDataByWriteIt
        [117, 50] 5 ⟨WriteType.put, 4, none⟩ true 7 3 false
      = .error .runtimeCheckFailed := by
  decide

end DB
